import Mathlib

/-!
Verification of the multi-strategy extraction engine of
bundestag-protocol-extractor.

The repository ships its documentation (README, release material and the
phase implementation reports) but the Python package sources themselves are
not among the staged files.  The engine is therefore modelled from the
specification: every definition whose doc comment starts with
"Modelled from the spec:" is a faithful shallow embedding of the behaviour
the spec (and the repository's implementation reports) describe, with the
names the source is reported to use (`parse_protocol_speeches`,
`get_or_fetch`, `repair_xml`, `validate_xml`, `record`, `resume`, ...).
The release workflow (`.github` publish job) is present verbatim in the
staged files and is embedded from that source.

Numeric confidences are rationals; the spec only constrains ordering and
banding, never exact floating-point values.
-/

namespace Bpe

/-- Modelled from the spec: extraction method label of
`ExtractionMetadata`, `method ∈ {structured, pattern, page, failed}`. -/
inductive Method where
  | structured : Method
  | pattern : Method
  | page : Method
  | failed : Method
deriving DecidableEq

/-- Modelled from the spec: extraction status label of
`ExtractionMetadata`, `status ∈ {complete, partial, empty}`.  The constructor
`part` stands for the spec's "partial". -/
inductive Status where
  | complete : Status
  | part : Status
  | empty : Status
deriving DecidableEq

/-- Modelled from the spec: the uniform quality label attached to every
produced speech record. -/
structure ExtractionMetadata where
  method : Method
  status : Status
  confidence : ℚ
deriving DecidableEq

/-- Modelled from the spec: a placeholder identifying a speech expected to
exist in a protocol (speaker reference, approximate page, sequence index),
produced by a preliminary scan that is an external collaborator. -/
structure SpeechStub where
  id : Nat
  speaker_ref : String
  page : Option Nat
  seq : Nat
deriving DecidableEq

/-- Modelled from the spec: an extracted speech record.  It owns the speech
text and exactly one `ExtractionMetadata` record; the ordered paragraph and
comment sub-units are collapsed into the text field, which none of the
verified properties inspect. -/
structure ExtractedSpeech where
  stubId : Nat
  speaker : String
  text : String
  metadata : ExtractionMetadata
deriving DecidableEq

/-- Modelled from the spec: the invariants of `ExtractionMetadata`:
the method and status domains, `confidence ∈ [0, 1]`, and
`method = failed ⇔ status = empty ⇔ confidence = 0`. -/
def metadata_ok (md : ExtractionMetadata) : Prop :=
  (md.method = Method.structured ∨ md.method = Method.pattern ∨
    md.method = Method.page ∨ md.method = Method.failed) ∧
  (md.status = Status.complete ∨ md.status = Status.part ∨
    md.status = Status.empty) ∧
  (0 ≤ md.confidence ∧ md.confidence ≤ 1) ∧
  (md.method = Method.failed ↔ md.status = Status.empty) ∧
  (md.status = Status.empty ↔ md.confidence = 0)

/-! ### Document model: tokens, validator and repairer

Modelled from the spec (§4.2) and the phase-2 implementation report: the
structured document is a stream of markup tokens; `_repair_xml` handles the
bounded corruption classes (missing declaration, unclosed or mismatched
tags via a depth-tracking tag-balance pass, unescaped reserved characters
in text content). -/

/-- Modelled from the spec: one token of the structured (XML-like)
representation: the document declaration, an opening tag carrying its name
and an id attribute, a closing tag, or character data. -/
inductive XmlTok where
  | decl : XmlTok
  | openT : String → Nat → XmlTok
  | closeT : String → XmlTok
  | text : String → XmlTok
deriving DecidableEq

/-- Entity tails a repair pass recognises after an ampersand: an ampersand
already starting one of these is considered escaped. -/
def entTails : List (List Char) :=
  [['a', 'm', 'p', ';'], ['l', 't', ';'], ['g', 't', ';'],
   ['q', 'u', 'o', 't', ';'], ['a', 'p', 'o', 's', ';']]

/-- Modelled from the spec: character-level escaping of reserved characters
in text content.  Angle brackets become entities; an ampersand is kept when
it already starts a known entity and expanded to the amp entity otherwise. -/
def escChars : List Char → List Char
  | [] => []
  | c :: rest =>
    if c == '<' then '&' :: 'l' :: 't' :: ';' :: escChars rest
    else if c == '>' then '&' :: 'g' :: 't' :: ';' :: escChars rest
    else if c == '&' then
      (if entTails.any fun e => e.isPrefixOf rest then '&' :: escChars rest
       else '&' :: 'a' :: 'm' :: 'p' :: ';' :: escChars rest)
    else c :: escChars rest

/-- Checker mirroring `escChars`: true when the character data holds no raw
angle bracket and every ampersand starts a known entity. -/
def escapedB : List Char → Bool
  | [] => true
  | c :: rest =>
    if c == '<' then false
    else if c == '>' then false
    else if c == '&' then (entTails.any fun e => e.isPrefixOf rest) && escapedB rest
    else escapedB rest

/-- Escaping lifted to strings. -/
def escStr (s : String) : String := String.mk (escChars s.toList)

/-- Escaping lifted to one token: only character data is rewritten. -/
def escTok : XmlTok → XmlTok
  | XmlTok.text s => XmlTok.text (escStr s)
  | t => t

/-- Modelled from the spec: the escaping pass of the repairer over the whole
token stream. -/
def escape_pass (l : List XmlTok) : List XmlTok := l.map escTok

/-- Modelled from the spec: the depth-tracking tag-balance pass.  `stack`
holds the names of the currently open tags; a matching close pops, a stray
or mismatched close is dropped, and every tag still open at the end of the
stream is closed. -/
def balanceAux : List String → List XmlTok → List XmlTok
  | stack, [] => stack.map fun n => XmlTok.closeT n
  | stack, XmlTok.openT n i :: rest => XmlTok.openT n i :: balanceAux (n :: stack) rest
  | stack, XmlTok.closeT n :: rest =>
    match stack with
    | [] => balanceAux [] rest
    | t :: stack2 =>
      if n == t then XmlTok.closeT n :: balanceAux stack2 rest
      else balanceAux (t :: stack2) rest
  | stack, tok :: rest => tok :: balanceAux stack rest

/-- Checker mirroring `balanceAux`: true when every close matches the
innermost open tag and no tag stays open. -/
def balancedFrom : List String → List XmlTok → Bool
  | stack, [] => stack.isEmpty
  | stack, XmlTok.openT n _ :: rest => balancedFrom (n :: stack) rest
  | stack, XmlTok.closeT n :: rest =>
    match stack with
    | [] => false
    | t :: stack2 => (n == t) && balancedFrom stack2 rest
  | stack, _ :: rest => balancedFrom stack rest

/-- Modelled from the spec: the tag-balance pass of the repairer. -/
def balance_tags (l : List XmlTok) : List XmlTok := balanceAux [] l

/-- Modelled from the spec: prepend the document declaration when it is
missing (the "missing root declaration" corruption class). -/
def ensure_declaration : List XmlTok → List XmlTok
  | XmlTok.decl :: rest => XmlTok.decl :: rest
  | l => XmlTok.decl :: l

/-- Modelled from the spec: `_repair_xml`, the rule-based bounded repair:
restore the declaration, escape reserved characters in text content, then
balance the tags.  It never invents content beyond syntactic wellformedness. -/
def repair_xml (x : List XmlTok) : List XmlTok :=
  balance_tags (escape_pass (ensure_declaration x))

/-- Modelled from the spec: `_validate_xml`, the cheap structural check: the
stream starts with the declaration and its tags balance. -/
def validate_xml (l : List XmlTok) : Bool :=
  (match l with
   | XmlTok.decl :: _ => true
   | _ => false) && balancedFrom [] l

/-! ### Document cache -/

/-- Modelled from the spec: errors surfaced by the cache:
"no such document" (do not retry) against a transient fetch failure
(the caller may retry with a different URL pattern). -/
inductive FetchError where
  | not_found : FetchError
  | transient : FetchError
deriving DecidableEq

/-- Modelled from the spec: what the external transport collaborator
returns: bytes, a transient failure, or a permanent failure. -/
inductive FetchOutcome where
  | ok : List XmlTok → FetchOutcome
  | transientFailure : FetchOutcome
  | permanentFailure : FetchOutcome
deriving DecidableEq

/-- Modelled from the spec: a cache entry: validated byte content plus its
validation timestamp. -/
structure CacheEntry where
  content : List XmlTok
  validated_at : Nat
deriving DecidableEq

/-- Cache state: the index mapping `(protocol_id, variant_id)` keys to
stored artifacts. -/
def CacheState : Type := List ((Nat × Nat) × CacheEntry)

/-- Lookup of the artifact stored for a key. -/
def cache_lookup (c : CacheState) (k : Nat × Nat) : Option CacheEntry :=
  (List.find? (fun e => e.1 == k) c).map fun e => e.2

/-- Eviction of a key (a failed revalidation evicts the entry). -/
def cache_evict (c : CacheState) (k : Nat × Nat) : CacheState :=
  List.filter (fun e => !(e.1 == k)) c

/-- Storing a fetched artifact under its key. -/
def cache_store (c : CacheState) (k : Nat × Nat) (e : CacheEntry) : CacheState :=
  (k, e) :: cache_evict c k

/-- Fetch on miss: invoke the transport, store a success.  The third
component counts how often `fetch_fn` was invoked. -/
def fetch_into (c : CacheState) (pid vid now : Nat)
    (fetch_fn : Unit → FetchOutcome) :
    Except FetchError (List XmlTok) × CacheState × Nat :=
  match fetch_fn () with
  | FetchOutcome.ok b => (Except.ok b, cache_store c (pid, vid) ⟨b, now⟩, 1)
  | FetchOutcome.transientFailure => (Except.error FetchError.transient, c, 1)
  | FetchOutcome.permanentFailure => (Except.error FetchError.not_found, c, 1)

/-- Modelled from the spec: `get_or_fetch(protocol_id, variant_id,
fetch_fn)`.  On hit the entry is revalidated with the cheap structural
check; a valid hit is returned without invoking `fetch_fn`, a failed
revalidation evicts the entry and falls through to the fetch path.  The
third component of the result counts the invocations of `fetch_fn`. -/
def get_or_fetch (c : CacheState) (pid vid now : Nat)
    (fetch_fn : Unit → FetchOutcome) :
    Except FetchError (List XmlTok) × CacheState × Nat :=
  match cache_lookup c (pid, vid) with
  | some e =>
    if validate_xml e.content then (Except.ok e.content, c, 0)
    else fetch_into (cache_evict c (pid, vid)) pid vid now fetch_fn
  | none => fetch_into c pid vid now fetch_fn

/-! ### Extraction strategies and the selector pipeline -/

/-- Modelled from the spec: a speaker/text node of the parsed structured
document, as the structured-format strategy consumes it. -/
structure SpeechNode where
  stubId : Nat
  speaker : String
  text : String
deriving DecidableEq

/-- Modelled from the spec: one candidate speech segment detected by the
pattern scanner of `PatternExtractionStrategy`: boundary-marker flags, the
best fuzzy roster-similarity score, a length-plausibility flag, the matched
roster name and the segment text.  The regex scan itself operates on plain
text and is summarised here by its result set. -/
structure PatternMatch where
  stubId : Nat
  start_found : Bool
  end_found : Bool
  similarity : ℚ
  length_ok : Bool
  matched_speaker : String
  segment_text : String
deriving DecidableEq

/-- Modelled from the spec: a protocol document: identifier, legislative
period, session index, priority-ordered candidate URLs, at most one parsed
structured representation, the pattern-scanner results over the plain-text
representation, and page-indexed text for the page strategy. -/
structure ProtocolDocument where
  id : Nat
  period : Nat
  session : Nat
  urls : List String
  content : Option (List SpeechNode)
  text_matches : List PatternMatch
  pages : List (Nat × String)

/-- Modelled from the spec: `XMLExtractionStrategy` applies when a
validated (or repaired) structured document is present. -/
def xml_applicable (p : ProtocolDocument) : Bool := p.content.isSome

/-- Modelled from the spec: `PatternExtractionStrategy` applies when a
textual representation produced pattern matches. -/
def pattern_applicable (p : ProtocolDocument) : Bool := !p.text_matches.isEmpty

/-- Modelled from the spec: `PageExtractionStrategy` applies when
page-indexed text exists. -/
def page_applicable (p : ProtocolDocument) : Bool := !p.pages.isEmpty

/-- Modelled from the spec: `XMLExtractionStrategy` per stub.  A stub with a
matching node is resolved; complete node data earns confidence 1, partial
node data (missing speaker attribution or empty text) the reduced 7/10. -/
def xmlResolve (p : ProtocolDocument) (s : SpeechStub) : Option ExtractedSpeech :=
  match p.content with
  | none => none
  | some nodes =>
    match List.find? (fun n => n.stubId == s.id) nodes with
    | none => none
    | some n =>
      if n.speaker ≠ "" ∧ n.text ≠ "" then
        some ⟨s.id, n.speaker, n.text,
          ⟨Method.structured, Status.complete, 1⟩⟩
      else
        some ⟨s.id, n.speaker, n.text,
          ⟨Method.structured, Status.part, 7/10⟩⟩

/-- Modelled from the spec: the minimum fuzzy-similarity threshold below
which the pattern strategy attributes the speech to an unknown speaker. -/
def min_similarity : ℚ := 1/2

/-- Modelled from the spec: the pattern strategy's confidence: a function of
boundary-marker presence, speaker-match similarity and length plausibility,
clamped into the band [3/10, 13/20] inside the spec's typical 0.3 - 0.7
range and strictly below every structured-strategy confidence. -/
def pattern_confidence (m : PatternMatch) : ℚ :=
  max (3/10) (min (13/20)
    (3/10 + (if m.start_found then 1/20 else 0)
      + (if m.end_found then 1/20 else 0)
      + m.similarity / 5
      - (if m.length_ok then 0 else 1/10)))

/-- Modelled from the spec: `PatternExtractionStrategy` per stub.  A stub
with a detected segment is resolved; below-threshold similarity attributes
the speech to "unknown" with partial status, and the status is complete
exactly when the speaker matched and both boundary markers were found. -/
def patternResolve (p : ProtocolDocument) (s : SpeechStub) : Option ExtractedSpeech :=
  match List.find? (fun m => m.stubId == s.id) p.text_matches with
  | none => none
  | some m =>
    some ⟨s.id,
      (if min_similarity ≤ m.similarity then m.matched_speaker else "unknown"),
      m.segment_text,
      ⟨Method.pattern,
       (if min_similarity ≤ m.similarity ∧ m.start_found = true ∧ m.end_found = true
        then Status.complete else Status.part),
       pattern_confidence m⟩⟩

/-- Modelled from the spec: the bounded text window around a starting page
used by the page strategy. -/
def page_window (p : ProtocolDocument) (pg : Nat) : String :=
  String.join ((List.filter (fun q => decide (pg - 1 ≤ q.1 ∧ q.1 ≤ pg + 1)) p.pages).map
    fun q => q.2)

/-- Modelled from the spec: `PageExtractionStrategy` per stub: given a
starting page number and page-indexed text, the window around that page is
emitted as a best-effort approximation, always labelled partial with the
fixed low confidence 3/20 inside the spec's 0.1 - 0.2 band. -/
def pageResolve (p : ProtocolDocument) (s : SpeechStub) : Option ExtractedSpeech :=
  if p.pages.isEmpty then none
  else
    match s.page with
    | none => none
    | some pg =>
      some ⟨s.id, s.speaker_ref, page_window p pg,
        ⟨Method.page, Status.part, 3/20⟩⟩

/-- Modelled from the spec: the record emitted for a stub no strategy
resolved: `method = failed`, `status = empty`, confidence 0. -/
def failed_speech (s : SpeechStub) : ExtractedSpeech :=
  ⟨s.id, s.speaker_ref, "", ⟨Method.failed, Status.empty, 0⟩⟩

/-- Modelled from the spec: one strategy pass over the pending stub set:
the speeches of the stubs the strategy resolves, and the stubs left pending
for the next strategy, both in order. -/
def runStrategy (resolve : SpeechStub → Option ExtractedSpeech) :
    List SpeechStub → List ExtractedSpeech × List SpeechStub
  | [] => ([], [])
  | s :: rest =>
    let r := runStrategy resolve rest
    match resolve s with
    | some e => (e :: r.1, r.2)
    | none => (r.1, s :: r.2)

/-- Modelled from the spec: the per-protocol states of the selector's state
machine, in the fixed fidelity order. -/
inductive PipeState where
  | PENDING : PipeState
  | STRUCTURED_ATTEMPTED : PipeState
  | PATTERN_ATTEMPTED : PipeState
  | PAGE_ATTEMPTED : PipeState
  | DONE : PipeState
deriving DecidableEq

/-- The fixed successor of each selector state; the fidelity order is a
system invariant, not a policy knob. -/
def succState : PipeState → PipeState
  | PipeState.PENDING => PipeState.STRUCTURED_ATTEMPTED
  | PipeState.STRUCTURED_ATTEMPTED => PipeState.PATTERN_ATTEMPTED
  | PipeState.PATTERN_ATTEMPTED => PipeState.PAGE_ATTEMPTED
  | PipeState.PAGE_ATTEMPTED => PipeState.DONE
  | PipeState.DONE => PipeState.DONE

/-- Rank of a selector state along the fidelity order. -/
def stateRank : PipeState → Nat
  | PipeState.PENDING => 0
  | PipeState.STRUCTURED_ATTEMPTED => 1
  | PipeState.PATTERN_ATTEMPTED => 2
  | PipeState.PAGE_ATTEMPTED => 3
  | PipeState.DONE => 4

/-- A configuration of the selector's per-protocol state machine: current
state, still-unresolved stubs, and the speeches emitted so far. -/
structure PipeConfig where
  state : PipeState
  pending : List SpeechStub
  emitted : List ExtractedSpeech

/-- Modelled from the spec: one transition of the selector.  At each state
the next strategy runs against the still-unresolved stub set and resolved
stubs are removed before the next state; the transition to DONE occurs when
the pending set is empty or all strategies have been attempted, and the
stubs remaining after the page strategy are emitted with `method=failed`. -/
def step (p : ProtocolDocument) (c : PipeConfig) : PipeConfig :=
  match c.state with
  | PipeState.PENDING =>
    if c.pending.isEmpty then ⟨PipeState.DONE, c.pending, c.emitted⟩
    else
      let r := runStrategy (xmlResolve p) c.pending
      ⟨PipeState.STRUCTURED_ATTEMPTED, r.2, c.emitted ++ r.1⟩
  | PipeState.STRUCTURED_ATTEMPTED =>
    if c.pending.isEmpty then ⟨PipeState.DONE, c.pending, c.emitted⟩
    else
      let r := runStrategy (patternResolve p) c.pending
      ⟨PipeState.PATTERN_ATTEMPTED, r.2, c.emitted ++ r.1⟩
  | PipeState.PATTERN_ATTEMPTED =>
    if c.pending.isEmpty then ⟨PipeState.DONE, c.pending, c.emitted⟩
    else
      let r := runStrategy (pageResolve p) c.pending
      ⟨PipeState.PAGE_ATTEMPTED, r.2, c.emitted ++ r.1⟩
  | PipeState.PAGE_ATTEMPTED =>
    ⟨PipeState.DONE, [], c.emitted ++ c.pending.map failed_speech⟩
  | PipeState.DONE => c

/-- Modelled from the spec: `parse_protocol_speeches`, the selector
pipeline: strategies in fidelity order over the shrinking pending set; four
transitions always reach DONE. -/
def parse_protocol_speeches (p : ProtocolDocument) (stubs : List SpeechStub) :
    List ExtractedSpeech :=
  (step p (step p (step p (step p ⟨PipeState.PENDING, stubs, []⟩)))).emitted

/-! ### Progress tracker -/

/-- Modelled from the spec: the per-protocol outcome recorded in the
checkpoint. -/
inductive Outcome where
  | completed : Outcome
  | incomplete : Outcome
  | failed : Outcome
deriving DecidableEq

/-- Modelled from the spec: the durable checkpoint: an ordered log of
(protocol identifier, outcome) pairs plus summary counters. -/
structure ProgressCheckpoint where
  log : List (Nat × Outcome)
  total_expected : Nat
  completed_count : Nat
deriving DecidableEq

/-- Modelled from the spec: `record(protocol_id, outcome)` durably appends
and updates the summary counters. -/
def record (cp : ProgressCheckpoint) (pid : Nat) (oc : Outcome) : ProgressCheckpoint :=
  ⟨cp.log ++ [(pid, oc)], cp.total_expected,
   if oc = Outcome.completed then cp.completed_count + 1 else cp.completed_count⟩

/-- Identifiers recorded as completed in a checkpoint. -/
def completedIds (cp : ProgressCheckpoint) : List Nat :=
  (List.filter (fun r => decide (r.2 = Outcome.completed)) cp.log).map fun r => r.1

/-- Modelled from the spec: the remaining-work set of a checkpoint over the
known ordered protocol list: the protocols without a completed record, in
order. -/
def remaining_work (protocols : List Nat) (cp : ProgressCheckpoint) : List Nat :=
  List.filter (fun q => decide (q ∉ completedIds cp)) protocols

/-- Recompute the summary counters of a checkpoint from its log, as loading
a progress file does. -/
def normalize_checkpoint (cp : ProgressCheckpoint) : ProgressCheckpoint :=
  ⟨cp.log, cp.total_expected,
   (List.filter (fun r => decide (r.2 = Outcome.completed)) cp.log).length⟩

/-- Modelled from the spec: `resume(checkpoint)`: a pure read of the
checkpoint yielding the remaining-work cursor, alongside the checkpoint
state it leaves behind (its counters recomputed from the log, the log
untouched). -/
def resume (protocols : List Nat) (cp : ProgressCheckpoint) :
    List Nat × ProgressCheckpoint :=
  (remaining_work protocols cp, normalize_checkpoint cp)

/-! ### Job runner and error handling -/

/-- Modelled from the spec: parsing speaker/text nodes out of a validated
token stream: a speech node is an open tag named "rede" carrying the stub
id, the speaker, the text, and the matching close. -/
def parseNodes : List XmlTok → List SpeechNode
  | [] => []
  | XmlTok.openT n i :: XmlTok.text spk :: XmlTok.text body ::
      XmlTok.closeT n2 :: rest =>
    if n == "rede" && n2 == "rede" then ⟨i, spk, body⟩ :: parseNodes rest
    else parseNodes (XmlTok.text spk :: XmlTok.text body :: XmlTok.closeT n2 :: rest)
  | _ :: rest => parseNodes rest

/-- Modelled from the spec: the structured representation the pipeline gets
for a protocol: a fetched document is validated, repaired when invalid, and
dropped (falling through to the lower-fidelity strategies) when neither
validates; a fetch failure yields no structured document and is never
fatal. -/
def document_from_fetch (fr : FetchOutcome) : Option (List SpeechNode) :=
  match fr with
  | FetchOutcome.ok b =>
    if validate_xml b then some (parseNodes b)
    else
      let r := repair_xml b
      if validate_xml r then some (parseNodes r) else none
  | _ => none

/-- Modelled from the spec: one protocol's unit of work: its document
metadata, what the transport returned for it, and its speech stubs. -/
structure ProtocolJob where
  doc : ProtocolDocument
  fetch_result : FetchOutcome
  stubs : List SpeechStub

/-- Modelled from the spec: processing one protocol: the pipeline runs over
the document the fetch produced (possibly none) and the protocol's stubs. -/
def process_protocol (j : ProtocolJob) : List ExtractedSpeech :=
  parse_protocol_speeches
    { j.doc with content := document_from_fetch j.fetch_result } j.stubs

/-- Modelled from the spec: the overall extraction job.  The only fatal
condition is checkpoint-store unavailability, which aborts; otherwise every
protocol is processed (its recoverable failures degrade the strategies) and
checkpointed completed. -/
def run_job (store_available : Bool) (jobs : List ProtocolJob) :
    Except String (List (Nat × List ExtractedSpeech) × ProgressCheckpoint) :=
  if store_available then
    Except.ok
      (jobs.map fun j => (j.doc.id, process_protocol j),
       jobs.foldl (fun cp j => record cp j.doc.id Outcome.completed)
         ⟨[], jobs.length, 0⟩)
  else Except.error "checkpoint store unavailable"

/-- Whether the job finished instead of aborting. -/
def is_success
    (r : Except String (List (Nat × List ExtractedSpeech) × ProgressCheckpoint)) :
    Bool :=
  match r with
  | Except.ok _ => true
  | Except.error _ => false

/-! ### Release publishing workflow

Embedded from the staged GitHub Actions workflow (the publish job): the
"Verify version matches tag" step strips the `refs/tags/v` prefix from the
ref, compares it with the package's declared version, and exits with status
1 before "Build package" and "Publish package to PyPI" run when they
differ. -/

/-- The steps of the publish job, in workflow order. -/
inductive WfStep where
  | checkout : WfStep
  | setupPython : WfStep
  | installDeps : WfStep
  | verifyVersion : WfStep
  | buildPackage : WfStep
  | publishPyPI : WfStep
  | verifyAvailable : WfStep
deriving DecidableEq

/-- Shell `TAG=$\x7bGITHUB_REF#refs/tags/v\x7d`: strip the prefix when
present, keep the ref unchanged otherwise. -/
def tag_from_ref (ref : String) : String :=
  if String.isPrefixOf "refs/tags/v" ref then ref.drop 11 else ref

/-- The publish job run on a ref against the package's declared version:
the steps that execute, and the job's exit status.  A version mismatch
exits 1 at the verify step, so build and publish never run. -/
def publish_steps (github_ref package_version : String) : List WfStep × Nat :=
  if tag_from_ref github_ref = package_version then
    ([WfStep.checkout, WfStep.setupPython, WfStep.installDeps,
      WfStep.verifyVersion, WfStep.buildPackage, WfStep.publishPyPI,
      WfStep.verifyAvailable], 0)
  else
    ([WfStep.checkout, WfStep.setupPython, WfStep.installDeps,
      WfStep.verifyVersion], 1)

/-! ### Concrete sample data for the witnesses -/

/-- Sample parsed speech node. -/
def sampleNode : SpeechNode := ⟨1, "Alice Beispiel", "Meine Damen und Herren"⟩

/-- Sample pattern-scanner result for the same stub. -/
def sampleMatch : PatternMatch :=
  ⟨1, true, true, 9/10, true, "Alice Beispiel", "Meine Damen und Herren"⟩

/-- Sample stub. -/
def sampleStub : SpeechStub := ⟨1, "Alice Beispiel", some 12, 0⟩

/-- Sample protocol document resolvable by every strategy. -/
def sampleProtocol : ProtocolDocument :=
  ⟨77, 20, 5, [], some [sampleNode], [sampleMatch], [(12, "Seitentext")]⟩

/-- The speech the structured strategy extracts from the sample. -/
def sampleXmlSpeech : ExtractedSpeech :=
  ⟨1, "Alice Beispiel", "Meine Damen und Herren",
   ⟨Method.structured, Status.complete, 1⟩⟩

/-- The speech the pattern strategy extracts from the sample. -/
def samplePatternSpeech : ExtractedSpeech :=
  ⟨1, "Alice Beispiel", "Meine Damen und Herren",
   ⟨Method.pattern, Status.complete, pattern_confidence sampleMatch⟩⟩

/-- Sample well-formed token stream. -/
def sampleXml : List XmlTok :=
  [XmlTok.decl, XmlTok.openT "dbtplenarprotokoll" 0, XmlTok.openT "rede" 1,
   XmlTok.text "Alice Beispiel", XmlTok.text "Meine Damen und Herren",
   XmlTok.closeT "rede", XmlTok.closeT "dbtplenarprotokoll"]

/-- Sample cache holding the sample stream for protocol 123 of period 20. -/
def sampleCache : CacheState := [((20, 123), ⟨sampleXml, 99⟩)]

/-- The ten protocols of the resumption scenario. -/
def tenProtocols : List Nat := [1, 2, 3, 4, 5, 6, 7, 8, 9, 10]

/-- Checkpoint of the resumption scenario: interrupted right after protocol
6 was checkpointed complete. -/
def sixDone : ProgressCheckpoint :=
  ⟨[(1, Outcome.completed), (2, Outcome.completed), (3, Outcome.completed),
    (4, Outcome.completed), (5, Outcome.completed), (6, Outcome.completed)],
   10, 6⟩

/-! ## Lemmas: the repairer -/

/-- A list is a prefix of itself followed by anything. -/
lemma isPrefixOf_append_self : ∀ (e l : List Char), List.isPrefixOf e (e ++ l) = true
  | [], _ => by simp
  | a :: as, l => by
    rw [List.cons_append, List.isPrefixOf_cons₂]
    simp [isPrefixOf_append_self as l]

/-- Positive prefix checks expose the decomposition. -/
lemma exists_of_isPrefixOf :
    ∀ (e r : List Char), List.isPrefixOf e r = true → ∃ t, r = e ++ t
  | [], r, _ => ⟨r, rfl⟩
  | _ :: _, [], h => by simp at h
  | a :: as, b :: bs, h => by
    rw [List.isPrefixOf_cons₂] at h
    rw [Bool.and_eq_true] at h
    obtain ⟨h1, h2⟩ := h
    obtain ⟨t, ht⟩ := exists_of_isPrefixOf as bs h2
    exact ⟨t, by rw [ht, List.cons_append, show a = b from by simpa using h1]⟩

/-- Unfolding of `escChars` at an angle bracket. -/
lemma escChars_lt (l : List Char) :
    escChars ('<' :: l) = '&' :: 'l' :: 't' :: ';' :: escChars l := rfl

/-- Unfolding of `escChars` at a closing angle bracket. -/
lemma escChars_gt (l : List Char) :
    escChars ('>' :: l) = '&' :: 'g' :: 't' :: ';' :: escChars l := rfl

/-- Unfolding of `escChars` at an ampersand. -/
lemma escChars_amp (l : List Char) :
    escChars ('&' :: l) =
      (if entTails.any fun e => e.isPrefixOf l then '&' :: escChars l
       else '&' :: 'a' :: 'm' :: 'p' :: ';' :: escChars l) := rfl

/-- Unfolding of `escapedB` at an angle bracket. -/
lemma escapedB_lt (l : List Char) : escapedB ('<' :: l) = false := rfl

/-- Unfolding of `escapedB` at a closing angle bracket. -/
lemma escapedB_gt (l : List Char) : escapedB ('>' :: l) = false := rfl

/-- Unfolding of `escapedB` at an ampersand. -/
lemma escapedB_amp (l : List Char) :
    escapedB ('&' :: l) =
      ((entTails.any fun e => e.isPrefixOf l) && escapedB l) := rfl

/-- The escaper passes an unreserved character through. -/
lemma escChars_safe_cons (c : Char) (l : List Char)
    (h1 : c ≠ '<') (h2 : c ≠ '>') (h3 : c ≠ '&') :
    escChars (c :: l) = c :: escChars l := by
  simp [escChars, h1, h2, h3]

/-- The escape checker skips an unreserved character. -/
lemma escapedB_safe_cons (c : Char) (l : List Char)
    (h1 : c ≠ '<') (h2 : c ≠ '>') (h3 : c ≠ '&') :
    escapedB (c :: l) = escapedB l := by
  simp [escapedB, h1, h2, h3]

/-- The escaper passes a run of unreserved characters through. -/
lemma escChars_append_safe (l₁ l₂ : List Char)
    (h : ∀ c ∈ l₁, c ≠ '<' ∧ c ≠ '>' ∧ c ≠ '&') :
    escChars (l₁ ++ l₂) = l₁ ++ escChars l₂ := by
  induction l₁ with
  | nil => simp
  | cons c rest ih =>
    obtain ⟨h1, h2, h3⟩ := h c (by simp)
    rw [List.cons_append, escChars_safe_cons c _ h1 h2 h3,
      ih fun d hd => h d (List.mem_cons_of_mem _ hd), List.cons_append]

/-- Escaped output stays escaped: the second pass finds nothing to do. -/
lemma escapedB_escChars (l : List Char) : escapedB (escChars l) = true := by
  induction l with
  | nil => rfl
  | cons c rest ih =>
    by_cases h1 : c = '<'
    · subst h1
      rw [escChars_lt, escapedB_amp]
      have hany : (entTails.any fun e =>
          e.isPrefixOf ('l' :: 't' :: ';' :: escChars rest)) = true :=
        List.any_eq_true.mpr ⟨['l', 't', ';'], by simp [entTails],
          isPrefixOf_append_self ['l', 't', ';'] (escChars rest)⟩
      rw [hany, Bool.true_and,
        escapedB_safe_cons 'l' _ (by decide) (by decide) (by decide),
        escapedB_safe_cons 't' _ (by decide) (by decide) (by decide),
        escapedB_safe_cons ';' _ (by decide) (by decide) (by decide), ih]
    · by_cases h2 : c = '>'
      · subst h2
        rw [escChars_gt, escapedB_amp]
        have hany : (entTails.any fun e =>
            e.isPrefixOf ('g' :: 't' :: ';' :: escChars rest)) = true :=
          List.any_eq_true.mpr ⟨['g', 't', ';'], by simp [entTails],
            isPrefixOf_append_self ['g', 't', ';'] (escChars rest)⟩
        rw [hany, Bool.true_and,
          escapedB_safe_cons 'g' _ (by decide) (by decide) (by decide),
          escapedB_safe_cons 't' _ (by decide) (by decide) (by decide),
          escapedB_safe_cons ';' _ (by decide) (by decide) (by decide), ih]
      · by_cases h3 : c = '&'
        · subst h3
          by_cases hany : (entTails.any fun e => e.isPrefixOf rest) = true
          · obtain ⟨e, he, hpre⟩ := List.any_eq_true.mp hany
            obtain ⟨t, rfl⟩ := exists_of_isPrefixOf e rest hpre
            have hsafe : ∀ d ∈ e, d ≠ '<' ∧ d ≠ '>' ∧ d ≠ '&' := by
              simp only [entTails, List.mem_cons, List.not_mem_nil, or_false] at he
              rcases he with rfl | rfl | rfl | rfl | rfl <;> decide
            have hesc : escChars (e ++ t) = e ++ escChars t :=
              escChars_append_safe e t hsafe
            rw [escChars_amp, if_pos hany, escapedB_amp, hesc]
            rw [hesc] at ih
            have hany2 : (entTails.any fun e2 => e2.isPrefixOf (e ++ escChars t)) = true :=
              List.any_eq_true.mpr ⟨e, he, isPrefixOf_append_self e (escChars t)⟩
            rw [hany2, Bool.true_and, ih]
          · rw [escChars_amp, if_neg hany, escapedB_amp]
            have hany2 : (entTails.any fun e =>
                e.isPrefixOf ('a' :: 'm' :: 'p' :: ';' :: escChars rest)) = true :=
              List.any_eq_true.mpr ⟨['a', 'm', 'p', ';'], by simp [entTails],
                isPrefixOf_append_self ['a', 'm', 'p', ';'] (escChars rest)⟩
            rw [hany2, Bool.true_and,
              escapedB_safe_cons 'a' _ (by decide) (by decide) (by decide),
              escapedB_safe_cons 'm' _ (by decide) (by decide) (by decide),
              escapedB_safe_cons 'p' _ (by decide) (by decide) (by decide),
              escapedB_safe_cons ';' _ (by decide) (by decide) (by decide), ih]
        · rw [escChars_safe_cons c _ h1 h2 h3,
            escapedB_safe_cons c _ h1 h2 h3, ih]

/-- On escaped input the escaper is the identity. -/
lemma escChars_of_escaped (l : List Char) (h : escapedB l = true) :
    escChars l = l := by
  induction l with
  | nil => rfl
  | cons c rest ih =>
    by_cases h1 : c = '<'
    · subst h1; rw [escapedB_lt] at h; simp at h
    · by_cases h2 : c = '>'
      · subst h2; rw [escapedB_gt] at h; simp at h
      · by_cases h3 : c = '&'
        · subst h3
          rw [escapedB_amp] at h
          rw [Bool.and_eq_true] at h
          obtain ⟨ha, hb⟩ := h
          rw [escChars_amp, if_pos ha, ih hb]
        · rw [escapedB_safe_cons c _ h1 h2 h3] at h
          rw [escChars_safe_cons c _ h1 h2 h3, ih h]

/-- Character-level escaping is idempotent. -/
lemma escChars_idem (l : List Char) : escChars (escChars l) = escChars l :=
  escChars_of_escaped _ (escapedB_escChars l)

/-- String-level escaping is idempotent. -/
lemma escStr_idem (s : String) : escStr (escStr s) = escStr s := by
  unfold escStr
  exact congrArg String.mk
    (by rw [show (String.mk (escChars s.toList)).toList = escChars s.toList from rfl,
          escChars_idem])

/-- Token-level escaping is idempotent. -/
lemma escTok_idem (t : XmlTok) : escTok (escTok t) = escTok t := by
  cases t <;> simp [escTok, escStr_idem]

/-- The escape pass is idempotent. -/
lemma escape_pass_idem (l : List XmlTok) :
    escape_pass (escape_pass l) = escape_pass l := by
  unfold escape_pass
  rw [List.map_map]
  exact List.map_congr_left fun t _ => escTok_idem t

/-- A stack's own closing tags balance it. -/
lemma closes_balanced (stack : List String) :
    balancedFrom stack (stack.map fun n => XmlTok.closeT n) = true := by
  induction stack with
  | nil => rfl
  | cons t s ih => simp [balancedFrom, ih]

/-- The output of the balance pass is balanced. -/
lemma balanceAux_balancedFrom (l : List XmlTok) :
    ∀ stack, balancedFrom stack (balanceAux stack l) = true := by
  induction l with
  | nil => exact fun stack => closes_balanced stack
  | cons tok rest ih =>
    intro stack
    cases tok with
    | decl => simp [balanceAux, balancedFrom, ih stack]
    | text s => simp [balanceAux, balancedFrom, ih stack]
    | openT n i => simp [balanceAux, balancedFrom, ih (n :: stack)]
    | closeT n =>
      cases stack with
      | nil => simp [balanceAux, ih []]
      | cons t s2 =>
        by_cases h : n = t
        · subst h; simp [balanceAux, balancedFrom, ih s2]
        · simp [balanceAux, balancedFrom, h, ih (t :: s2)]

/-- On balanced input the balance pass is the identity. -/
lemma balanceAux_of_balancedFrom (l : List XmlTok) :
    ∀ stack, balancedFrom stack l = true → balanceAux stack l = l := by
  induction l with
  | nil =>
    intro stack h
    have hs : stack = [] := by simpa [balancedFrom] using h
    subst hs; rfl
  | cons tok rest ih =>
    intro stack h
    cases tok with
    | decl =>
      have h' : balancedFrom stack rest = true := by simpa [balancedFrom] using h
      simp [balanceAux, ih stack h']
    | text s =>
      have h' : balancedFrom stack rest = true := by simpa [balancedFrom] using h
      simp [balanceAux, ih stack h']
    | openT n i =>
      have h' : balancedFrom (n :: stack) rest = true := by
        simpa [balancedFrom] using h
      simp [balanceAux, ih (n :: stack) h']
    | closeT n =>
      cases stack with
      | nil => simp [balancedFrom] at h
      | cons t s2 =>
        rw [show balancedFrom (t :: s2) (XmlTok.closeT n :: rest)
            = ((n == t) && balancedFrom s2 rest) from rfl] at h
        rw [Bool.and_eq_true] at h
        obtain ⟨h1, h2⟩ := h
        have hn : n = t := by simpa using h1
        subst hn
        simp [balanceAux, ih s2 h2]

/-- The balance pass is idempotent. -/
lemma balance_tags_idem (l : List XmlTok) :
    balance_tags (balance_tags l) = balance_tags l :=
  balanceAux_of_balancedFrom _ [] (balanceAux_balancedFrom l [])

/-- The escape pass commutes with the balance pass: escaping never touches
tag names, balancing never touches character data. -/
lemma escape_balanceAux (l : List XmlTok) :
    ∀ stack, escape_pass (balanceAux stack l) = balanceAux stack (escape_pass l) := by
  induction l with
  | nil =>
    intro stack
    simp [escape_pass, balanceAux, List.map_map, Function.comp, escTok]
  | cons tok rest ih =>
    intro stack
    cases tok with
    | decl => simpa [escape_pass, escTok, balanceAux] using ih stack
    | text s => simpa [escape_pass, escTok, balanceAux] using ih stack
    | openT n i => simpa [escape_pass, escTok, balanceAux] using ih (n :: stack)
    | closeT n =>
      cases stack with
      | nil => simpa [escape_pass, escTok, balanceAux] using ih []
      | cons t s2 =>
        by_cases h : n = t
        · subst h; simpa [escape_pass, escTok, balanceAux] using ih s2
        · simpa [escape_pass, escTok, balanceAux, h] using ih (t :: s2)

/-- Declaration restoration is the identity on declaration-headed streams. -/
lemma ensure_declaration_decl (l : List XmlTok) :
    ensure_declaration (XmlTok.decl :: l) = XmlTok.decl :: l := rfl

/-- Declaration restoration always yields a declaration-headed stream. -/
lemma ensure_declaration_shape (x : List XmlTok) :
    ∃ y, ensure_declaration x = XmlTok.decl :: y := by
  cases x with
  | nil => exact ⟨[], rfl⟩
  | cons t rest =>
    cases t with
    | decl => exact ⟨rest, rfl⟩
    | openT n i => exact ⟨XmlTok.openT n i :: rest, rfl⟩
    | closeT n => exact ⟨XmlTok.closeT n :: rest, rfl⟩
    | text s => exact ⟨XmlTok.text s :: rest, rfl⟩

/-- Repaired output starts with the declaration. -/
lemma repair_xml_decl_head (x : List XmlTok) :
    ∃ z, repair_xml x = XmlTok.decl :: z := by
  obtain ⟨y, hy⟩ := ensure_declaration_shape x
  refine ⟨balanceAux [] (List.map escTok y), ?_⟩
  unfold repair_xml balance_tags escape_pass
  rw [hy]
  rfl

/-- Repaired output needs no declaration restored. -/
lemma ensure_declaration_repair (x : List XmlTok) :
    ensure_declaration (repair_xml x) = repair_xml x := by
  obtain ⟨z, hz⟩ := repair_xml_decl_head x
  rw [hz]
  rfl

/-- Core composition fact behind idempotence: balancing then escaping then
balancing again equals one balance of the escaped stream. -/
lemma repair_core_idem (m : List XmlTok) :
    balanceAux [] (List.map escTok (balanceAux [] (List.map escTok m)))
      = balanceAux [] (List.map escTok m) := by
  rw [show List.map escTok (balanceAux [] (List.map escTok m))
      = balanceAux [] (List.map escTok (List.map escTok m)) from
        escape_balanceAux (List.map escTok m) [],
    show List.map escTok (List.map escTok m) = List.map escTok m from
      escape_pass_idem m]
  exact balanceAux_of_balancedFrom _ [] (balanceAux_balancedFrom _ [])

/-- Claim C4: the document repair operation is idempotent: for every input
content x (in particular every member of the bounded repair class: missing
root declaration, unclosed or mismatched tags, unescaped reserved
characters), repair (repair x) equals repair x. -/
theorem repair_xml_idempotent (x : List XmlTok) :
    repair_xml (repair_xml x) = repair_xml x := by
  calc repair_xml (repair_xml x)
      = balance_tags (escape_pass (repair_xml x)) := by
        show balance_tags (escape_pass (ensure_declaration (repair_xml x)))
          = balance_tags (escape_pass (repair_xml x))
        rw [ensure_declaration_repair]
    _ = repair_xml x := repair_core_idem (ensure_declaration x)

/-! ## Lemmas: the cache -/

/-- Claim C5: when the cache already holds an entry for (protocol_id,
variant_id) whose structural signature passes revalidation, `get_or_fetch`
returns the cached bytes, leaves the cache unchanged, and never invokes
`fetch_fn` (the invocation count of the result is 0). -/
theorem cache_hit_no_fetch (c : CacheState) (pid vid now : Nat)
    (fetch_fn : Unit → FetchOutcome) (e : CacheEntry)
    (h1 : cache_lookup c (pid, vid) = some e)
    (h2 : validate_xml e.content = true) :
    get_or_fetch c pid vid now fetch_fn = (Except.ok e.content, c, 0) := by
  unfold get_or_fetch
  rw [h1]
  simp [h2]

/-- Witness for C5: a pre-populated valid entry for protocol 123 of period
20 is served as-is and the transport is never invoked. -/
theorem cache_hit_no_fetch_witness :
    get_or_fetch sampleCache 20 123 100 (fun _ => FetchOutcome.transientFailure)
      = (Except.ok sampleXml, sampleCache, 0) :=
  cache_hit_no_fetch sampleCache 20 123 100 (fun _ => FetchOutcome.transientFailure)
    ⟨sampleXml, 99⟩ (by decide) (by decide)

/-! ## Lemmas: the progress tracker -/

/-- Claim C6: the checkpoint is append-consistent: a protocol with a
completed record is never in the remaining-work set, and a protocol of the
job without a completed record (in particular one recorded incomplete or
failed) is never skipped. -/
theorem checkpoint_append_consistent (protocols : List Nat)
    (cp : ProgressCheckpoint) (p : Nat) :
    ((p, Outcome.completed) ∈ cp.log → p ∉ remaining_work protocols cp) ∧
    (p ∈ protocols → (p, Outcome.completed) ∉ cp.log →
      p ∈ remaining_work protocols cp) := by
  constructor
  · intro hlog hmem
    rw [remaining_work, List.mem_filter] at hmem
    have hnot : p ∉ completedIds cp := by simpa using hmem.2
    exact hnot (List.mem_map.mpr ⟨(p, Outcome.completed),
      List.mem_filter.mpr ⟨hlog, by simp⟩, rfl⟩)
  · intro hp hnc
    rw [remaining_work, List.mem_filter]
    refine ⟨hp, ?_⟩
    simp only [decide_eq_true_eq]
    intro hin
    obtain ⟨r, hr, hr1⟩ := List.mem_map.mp hin
    rw [List.mem_filter] at hr
    have h2 : r.2 = Outcome.completed := by simpa using hr.2
    exact hnc (by rw [show (p, Outcome.completed) = r from by
      rw [← hr1, ← h2]]; exact hr.1)

/-- Witness for C6, the resumption scenario: ten protocols, interrupted
after protocol 6 is checkpointed complete; the remaining-work set is
exactly protocols 7-10, protocol 6 is not re-emitted and protocol 7 is not
skipped. -/
theorem checkpoint_append_consistent_witness :
    remaining_work tenProtocols sixDone = [7, 8, 9, 10] ∧
    6 ∉ remaining_work tenProtocols sixDone ∧
    7 ∈ remaining_work tenProtocols sixDone :=
  ⟨by decide,
   (checkpoint_append_consistent tenProtocols sixDone 6).1 (by decide),
   (checkpoint_append_consistent tenProtocols sixDone 7).2 (by decide) (by decide)⟩

/-- Claim C7: resumption is strictly idempotent: resuming the checkpoint
state left by a resume yields the same cursor and state, and iterating the
resume state-update any number of times changes nothing further. -/
theorem resume_idempotent (protocols : List Nat) (cp : ProgressCheckpoint) :
    resume protocols ((resume protocols cp).2) = resume protocols cp ∧
    ∀ n : Nat, (fun c => (resume protocols c).2)^[n] ((resume protocols cp).2)
      = (resume protocols cp).2 := by
  constructor
  · rfl
  · intro n
    induction n with
    | zero => rfl
    | succ m ih => rw [Function.iterate_succ_apply', ih]; rfl

/-! ## Lemmas: the release workflow -/

/-- Claim C10: in the publish workflow, when the ref with the refs/tags/v
prefix stripped differs from the declared package version, the job exits
with status 1 after the verify step and before build and publish; the
package is built and published exactly when the two strings are equal, with
exit status 0. -/
theorem release_version_gate (github_ref package_version : String) :
    (tag_from_ref github_ref ≠ package_version →
      publish_steps github_ref package_version
        = ([WfStep.checkout, WfStep.setupPython, WfStep.installDeps,
            WfStep.verifyVersion], 1)) ∧
    ((WfStep.buildPackage ∈ (publish_steps github_ref package_version).1 ∨
      WfStep.publishPyPI ∈ (publish_steps github_ref package_version).1) ↔
      tag_from_ref github_ref = package_version) ∧
    (tag_from_ref github_ref = package_version →
      (publish_steps github_ref package_version).2 = 0) := by
  by_cases h : tag_from_ref github_ref = package_version
  · refine ⟨fun hne => absurd h hne, ?_, fun _ => by simp [publish_steps, h]⟩
    simp [publish_steps, h]
  · refine ⟨fun _ => by simp [publish_steps, h], ?_, fun he => absurd he h⟩
    simp [publish_steps, h]

/-! ## Lemmas: the strategies -/

/-- The complete structured metadata record is valid. -/
lemma metadata_ok_structured_complete :
    metadata_ok ⟨Method.structured, Status.complete, 1⟩ :=
  ⟨Or.inl rfl, Or.inl rfl, ⟨by norm_num, le_refl 1⟩,
   ⟨fun h => absurd h (by decide), fun h => absurd h (by decide)⟩,
   ⟨fun h => absurd h (by decide), fun h => absurd h (by norm_num)⟩⟩

/-- The partial structured metadata record is valid. -/
lemma metadata_ok_structured_part :
    metadata_ok ⟨Method.structured, Status.part, 7/10⟩ :=
  ⟨Or.inl rfl, Or.inr (Or.inl rfl), ⟨by norm_num, by norm_num⟩,
   ⟨fun h => absurd h (by decide), fun h => absurd h (by decide)⟩,
   ⟨fun h => absurd h (by decide), fun h => absurd h (by norm_num)⟩⟩

/-- The page metadata record is valid. -/
lemma metadata_ok_page_meta : metadata_ok ⟨Method.page, Status.part, 3/20⟩ :=
  ⟨Or.inr (Or.inr (Or.inl rfl)), Or.inr (Or.inl rfl), ⟨by norm_num, by norm_num⟩,
   ⟨fun h => absurd h (by decide), fun h => absurd h (by decide)⟩,
   ⟨fun h => absurd h (by decide), fun h => absurd h (by norm_num)⟩⟩

/-- The failure metadata record is valid. -/
lemma metadata_ok_failed_meta : metadata_ok ⟨Method.failed, Status.empty, 0⟩ :=
  ⟨Or.inr (Or.inr (Or.inr rfl)), Or.inr (Or.inr rfl), ⟨le_refl 0, by norm_num⟩,
   ⟨fun _ => rfl, fun _ => rfl⟩, ⟨fun _ => rfl, fun _ => rfl⟩⟩

/-- Everything the structured strategy emits: a valid metadata record with
the stub's identifier and confidence at least 7/10. -/
lemma xmlResolve_spec (p : ProtocolDocument) (s : SpeechStub) (e : ExtractedSpeech)
    (h : xmlResolve p s = some e) :
    metadata_ok e.metadata ∧ e.stubId = s.id ∧ 7/10 ≤ e.metadata.confidence := by
  cases hc : p.content with
  | none => simp [xmlResolve, hc] at h
  | some nodes =>
    cases hf : List.find? (fun n => n.stubId == s.id) nodes with
    | none => simp [xmlResolve, hc, hf] at h
    | some n =>
      simp only [xmlResolve, hc, hf] at h
      split_ifs at h with hcond
      · simp only [Option.some.injEq] at h
        subst h
        exact ⟨metadata_ok_structured_complete, rfl, by norm_num⟩
      · simp only [Option.some.injEq] at h
        subst h
        exact ⟨metadata_ok_structured_part, rfl, by norm_num⟩

/-- The pattern confidence is clamped into the band [3/10, 13/20]. -/
lemma pattern_confidence_bounds (m : PatternMatch) :
    3/10 ≤ pattern_confidence m ∧ pattern_confidence m ≤ 13/20 :=
  ⟨le_max_left _ _, max_le (by norm_num) (min_le_left _ _)⟩

/-- Everything the pattern strategy emits: a valid metadata record with the
stub's identifier and confidence at most 13/20. -/
lemma patternResolve_spec (p : ProtocolDocument) (s : SpeechStub) (e : ExtractedSpeech)
    (h : patternResolve p s = some e) :
    metadata_ok e.metadata ∧ e.stubId = s.id ∧ e.metadata.confidence ≤ 13/20 := by
  cases hf : List.find? (fun m => m.stubId == s.id) p.text_matches with
  | none => simp [patternResolve, hf] at h
  | some m =>
    simp only [patternResolve, hf, Option.some.injEq] at h
    subst h
    obtain ⟨hb1, hb2⟩ := pattern_confidence_bounds m
    have hs : (if min_similarity ≤ m.similarity ∧ m.start_found = true ∧
        m.end_found = true then Status.complete else Status.part) ≠ Status.empty := by
      split_ifs <;> simp
    have hc0 : pattern_confidence m ≠ 0 := by
      intro h0; rw [h0] at hb1; norm_num at hb1
    refine ⟨⟨by simp, ?_, ⟨by linarith, by linarith⟩, ?_, ?_⟩, rfl, hb2⟩
    · split_ifs <;> simp
    · exact ⟨fun hm => by simp at hm, fun he => absurd he hs⟩
    · exact ⟨fun he => absurd he hs, fun h0 => absurd h0 hc0⟩

/-- Everything the page strategy emits: a valid metadata record with the
stub's identifier. -/
lemma pageResolve_spec (p : ProtocolDocument) (s : SpeechStub) (e : ExtractedSpeech)
    (h : pageResolve p s = some e) :
    metadata_ok e.metadata ∧ e.stubId = s.id := by
  unfold pageResolve at h
  split_ifs at h with hp
  cases hpg : s.page with
  | none => rw [hpg] at h; simp at h
  | some pg =>
    rw [hpg] at h
    simp only [Option.some.injEq] at h
    subst h
    exact ⟨metadata_ok_page_meta, rfl⟩

/-- The failure record: a valid metadata record with the stub's identifier. -/
lemma failed_speech_spec (s : SpeechStub) :
    metadata_ok (failed_speech s).metadata ∧ (failed_speech s).stubId = s.id :=
  ⟨metadata_ok_failed_meta, rfl⟩

/-- Unfolding `runStrategy` when the head stub resolves. -/
lemma runStrategy_cons_some (r : SpeechStub → Option ExtractedSpeech)
    (s : SpeechStub) (rest : List SpeechStub) (e : ExtractedSpeech)
    (h : r s = some e) :
    runStrategy r (s :: rest)
      = (e :: (runStrategy r rest).1, (runStrategy r rest).2) := by
  simp [runStrategy, h]

/-- Unfolding `runStrategy` when the head stub does not resolve. -/
lemma runStrategy_cons_none (r : SpeechStub → Option ExtractedSpeech)
    (s : SpeechStub) (rest : List SpeechStub)
    (h : r s = none) :
    runStrategy r (s :: rest)
      = ((runStrategy r rest).1, s :: (runStrategy r rest).2) := by
  simp [runStrategy, h]

/-- One strategy pass preserves the stub identifiers: the resolved speeches
plus the still-pending stubs are a permutation of the input. -/
lemma runStrategy_ids (r : SpeechStub → Option ExtractedSpeech)
    (hr : ∀ s e, r s = some e → e.stubId = s.id) :
    ∀ l : List SpeechStub,
      ((runStrategy r l).1.map ExtractedSpeech.stubId
        ++ (runStrategy r l).2.map SpeechStub.id).Perm (l.map SpeechStub.id) := by
  intro l
  induction l with
  | nil => simp [runStrategy]
  | cons s rest ih =>
    cases h : r s with
    | some e =>
      rw [runStrategy_cons_some r s rest e h]
      simp only [List.map_cons, List.cons_append]
      rw [hr s e h]
      exact ih.cons s.id
    | none =>
      rw [runStrategy_cons_none r s rest h]
      simp only [List.map_cons]
      exact List.perm_middle.trans (ih.cons s.id)

/-- The stubs a strategy pass leaves pending are a sublist of its input. -/
lemma runStrategy_pending_sublist (r : SpeechStub → Option ExtractedSpeech) :
    ∀ l : List SpeechStub, ((runStrategy r l).2).Sublist l := by
  intro l
  induction l with
  | nil => simp [runStrategy]
  | cons s rest ih =>
    cases h : r s with
    | some e => rw [runStrategy_cons_some r s rest e h]; exact ih.cons s
    | none => rw [runStrategy_cons_none r s rest h]; exact ih.cons₂ s

/-- Every speech a strategy pass emits comes from resolving one stub of its
input. -/
lemma runStrategy_mem (r : SpeechStub → Option ExtractedSpeech) :
    ∀ (l : List SpeechStub) (e : ExtractedSpeech),
      e ∈ (runStrategy r l).1 → ∃ s, s ∈ l ∧ r s = some e := by
  intro l
  induction l with
  | nil => intro e he; simp [runStrategy] at he
  | cons s rest ih =>
    intro e he
    cases h : r s with
    | some e2 =>
      rw [runStrategy_cons_some r s rest e2 h] at he
      rcases List.mem_cons.mp he with rfl | hmem
      · exact ⟨s, List.mem_cons_self s rest, h⟩
      · obtain ⟨s2, hs2, hr2⟩ := ih e hmem
        exact ⟨s2, List.mem_cons_of_mem s hs2, hr2⟩
    | none =>
      rw [runStrategy_cons_none r s rest h] at he
      obtain ⟨s2, hs2, hr2⟩ := ih e he
      exact ⟨s2, List.mem_cons_of_mem s hs2, hr2⟩

/-! ## Lemmas: the selector state machine -/

/-- Unfolding `step` at PENDING. -/
lemma step_pending_eq (p : ProtocolDocument) (pend : List SpeechStub)
    (em : List ExtractedSpeech) :
    step p ⟨PipeState.PENDING, pend, em⟩
      = (if pend.isEmpty then ⟨PipeState.DONE, pend, em⟩
         else ⟨PipeState.STRUCTURED_ATTEMPTED, (runStrategy (xmlResolve p) pend).2,
               em ++ (runStrategy (xmlResolve p) pend).1⟩) := rfl

/-- Unfolding `step` at STRUCTURED_ATTEMPTED. -/
lemma step_structured_eq (p : ProtocolDocument) (pend : List SpeechStub)
    (em : List ExtractedSpeech) :
    step p ⟨PipeState.STRUCTURED_ATTEMPTED, pend, em⟩
      = (if pend.isEmpty then ⟨PipeState.DONE, pend, em⟩
         else ⟨PipeState.PATTERN_ATTEMPTED, (runStrategy (patternResolve p) pend).2,
               em ++ (runStrategy (patternResolve p) pend).1⟩) := rfl

/-- Unfolding `step` at PATTERN_ATTEMPTED. -/
lemma step_pattern_eq (p : ProtocolDocument) (pend : List SpeechStub)
    (em : List ExtractedSpeech) :
    step p ⟨PipeState.PATTERN_ATTEMPTED, pend, em⟩
      = (if pend.isEmpty then ⟨PipeState.DONE, pend, em⟩
         else ⟨PipeState.PAGE_ATTEMPTED, (runStrategy (pageResolve p) pend).2,
               em ++ (runStrategy (pageResolve p) pend).1⟩) := rfl

/-- Unfolding `step` at PAGE_ATTEMPTED. -/
lemma step_page_eq (p : ProtocolDocument) (pend : List SpeechStub)
    (em : List ExtractedSpeech) :
    step p ⟨PipeState.PAGE_ATTEMPTED, pend, em⟩
      = ⟨PipeState.DONE, [], em ++ pend.map failed_speech⟩ := rfl

/-- Unfolding `step` at DONE. -/
lemma step_done_eq (p : ProtocolDocument) (pend : List SpeechStub)
    (em : List ExtractedSpeech) :
    step p ⟨PipeState.DONE, pend, em⟩ = ⟨PipeState.DONE, pend, em⟩ := rfl

/-- One transition goes to DONE or to the fixed successor state. -/
lemma step_state_or_succ (p : ProtocolDocument) (c : PipeConfig) :
    (step p c).state = PipeState.DONE ∨ (step p c).state = succState c.state := by
  obtain ⟨s, pend, em⟩ := c
  cases s with
  | PENDING =>
    by_cases hb : pend.isEmpty <;> simp [step_pending_eq, hb, succState]
  | STRUCTURED_ATTEMPTED =>
    by_cases hb : pend.isEmpty <;> simp [step_structured_eq, hb, succState]
  | PATTERN_ATTEMPTED =>
    by_cases hb : pend.isEmpty <;> simp [step_pattern_eq, hb, succState]
  | PAGE_ATTEMPTED => simp [step_page_eq, succState]
  | DONE => simp [step_done_eq, succState]

/-- States rank at most 4. -/
lemma stateRank_le_four (s : PipeState) : stateRank s ≤ 4 := by
  cases s <;> simp [stateRank]

/-- Rank of the fixed successor. -/
lemma stateRank_succState (s : PipeState) :
    stateRank (succState s) = min 4 (stateRank s + 1) := by
  cases s <;> rfl

/-- One transition reaches rank 4 or makes one unit of progress. -/
lemma rank_step (p : ProtocolDocument) (c : PipeConfig) :
    stateRank (step p c).state = 4 ∨
    stateRank (step p c).state = stateRank c.state + 1 := by
  rcases step_state_or_succ p c with h | h
  · rw [h]; exact Or.inl rfl
  · obtain ⟨s, pend, em⟩ := c
    rw [h]
    cases s <;> simp [succState, stateRank]

/-- Four transitions always reach DONE. -/
lemma step4_state_done (p : ProtocolDocument) (c : PipeConfig) :
    (step p (step p (step p (step p c)))).state = PipeState.DONE := by
  have h1 := rank_step p c
  have h2 := rank_step p (step p c)
  have h3 := rank_step p (step p (step p c))
  have h4 := rank_step p (step p (step p (step p c)))
  have b1 := stateRank_le_four (step p c).state
  have b2 := stateRank_le_four (step p (step p c)).state
  have b3 := stateRank_le_four (step p (step p (step p c))).state
  have b4 := stateRank_le_four (step p (step p (step p (step p c)))).state
  have hrank : stateRank (step p (step p (step p (step p c)))).state = 4 := by
    rcases h1 with h1 | h1 <;> rcases h2 with h2 | h2 <;>
      rcases h3 with h3 | h3 <;> rcases h4 with h4 | h4 <;> omega
  have final : ∀ s : PipeState, stateRank s = 4 → s = PipeState.DONE := by
    intro s hs; cases s <;> simp_all [stateRank]
  exact final _ hrank

/-- A transition into DONE empties the pending set (and DONE keeps it). -/
lemma step_pending_empty_of (p : ProtocolDocument) (c : PipeConfig)
    (h : c.state = PipeState.DONE → c.pending = []) :
    (step p c).state = PipeState.DONE → (step p c).pending = [] := by
  obtain ⟨s, pend, em⟩ := c
  cases s with
  | PENDING =>
    by_cases hb : pend.isEmpty
    · intro _; rw [step_pending_eq, if_pos hb]
      cases pend with
      | nil => rfl
      | cons a l => simp at hb
    · rw [step_pending_eq, if_neg hb]; intro hst; simp at hst
  | STRUCTURED_ATTEMPTED =>
    by_cases hb : pend.isEmpty
    · intro _; rw [step_structured_eq, if_pos hb]
      cases pend with
      | nil => rfl
      | cons a l => simp at hb
    · rw [step_structured_eq, if_neg hb]; intro hst; simp at hst
  | PATTERN_ATTEMPTED =>
    by_cases hb : pend.isEmpty
    · intro _; rw [step_pattern_eq, if_pos hb]
      cases pend with
      | nil => rfl
      | cons a l => simp at hb
    · rw [step_pattern_eq, if_neg hb]; intro hst; simp at hst
  | PAGE_ATTEMPTED => intro _; rw [step_page_eq]
  | DONE => intro _; rw [step_done_eq]; exact h rfl

/-- The run of the pipeline ends with an empty pending set. -/
lemma parse_pipeline_final (p : ProtocolDocument) (stubs : List SpeechStub) :
    (step p (step p (step p (step p ⟨PipeState.PENDING, stubs, []⟩)))).pending = [] := by
  have h0 : (⟨PipeState.PENDING, stubs, ([] : List ExtractedSpeech)⟩ : PipeConfig).state
      = PipeState.DONE →
      (⟨PipeState.PENDING, stubs, ([] : List ExtractedSpeech)⟩ : PipeConfig).pending = [] :=
    fun h => by simp at h
  exact step_pending_empty_of p _
    (step_pending_empty_of p _
      (step_pending_empty_of p _
        (step_pending_empty_of p _ h0)))
    (step4_state_done p _)

/-- One transition preserves the multiset of stub identifiers spread over
the emitted speeches and the pending stubs. -/
lemma step_ids_perm (p : ProtocolDocument) (c : PipeConfig) :
    ((step p c).emitted.map ExtractedSpeech.stubId
      ++ (step p c).pending.map SpeechStub.id).Perm
      (c.emitted.map ExtractedSpeech.stubId ++ c.pending.map SpeechStub.id) := by
  obtain ⟨s, pend, em⟩ := c
  cases s with
  | PENDING =>
    by_cases hb : pend.isEmpty
    · rw [step_pending_eq, if_pos hb]
    · rw [step_pending_eq, if_neg hb]
      simp only [List.map_append, List.append_assoc]
      exact List.Perm.append_left _
        (runStrategy_ids _ (fun s2 e h => (xmlResolve_spec p s2 e h).2.1) pend)
  | STRUCTURED_ATTEMPTED =>
    by_cases hb : pend.isEmpty
    · rw [step_structured_eq, if_pos hb]
    · rw [step_structured_eq, if_neg hb]
      simp only [List.map_append, List.append_assoc]
      exact List.Perm.append_left _
        (runStrategy_ids _ (fun s2 e h => (patternResolve_spec p s2 e h).2.1) pend)
  | PATTERN_ATTEMPTED =>
    by_cases hb : pend.isEmpty
    · rw [step_pattern_eq, if_pos hb]
    · rw [step_pattern_eq, if_neg hb]
      simp only [List.map_append, List.append_assoc]
      exact List.Perm.append_left _
        (runStrategy_ids _ (fun s2 e h => (pageResolve_spec p s2 e h).2) pend)
  | PAGE_ATTEMPTED =>
    rw [step_page_eq]
    simp only [List.map_append, List.map_nil, List.append_nil, List.map_map]
    rw [show List.map (ExtractedSpeech.stubId ∘ failed_speech) pend
        = List.map SpeechStub.id pend from List.map_congr_left fun s2 _ => rfl]
  | DONE => exact List.Perm.refl _

/-- The pipeline emits exactly the input stub identifiers (as a multiset). -/
lemma pipeline_ids (p : ProtocolDocument) (stubs : List SpeechStub) :
    ((parse_protocol_speeches p stubs).map ExtractedSpeech.stubId).Perm
      (stubs.map SpeechStub.id) := by
  have H := ((step_ids_perm p (step p (step p (step p ⟨PipeState.PENDING, stubs, []⟩)))).trans
    ((step_ids_perm p (step p (step p ⟨PipeState.PENDING, stubs, []⟩))).trans
      ((step_ids_perm p (step p ⟨PipeState.PENDING, stubs, []⟩)).trans
        (step_ids_perm p ⟨PipeState.PENDING, stubs, []⟩))))
  rw [parse_pipeline_final p stubs] at H
  simpa [parse_protocol_speeches] using H

/-- One transition only appends speeches with valid metadata. -/
lemma step_meta (p : ProtocolDocument) (c : PipeConfig)
    (h : ∀ e ∈ c.emitted, metadata_ok e.metadata) :
    ∀ e ∈ (step p c).emitted, metadata_ok e.metadata := by
  obtain ⟨s, pend, em⟩ := c
  cases s with
  | PENDING =>
    by_cases hb : pend.isEmpty
    · rw [step_pending_eq, if_pos hb]; exact h
    · rw [step_pending_eq, if_neg hb]
      intro e he
      rcases List.mem_append.mp he with he | he
      · exact h e he
      · obtain ⟨s2, _, hs2⟩ := runStrategy_mem _ pend e he
        exact (xmlResolve_spec p s2 e hs2).1
  | STRUCTURED_ATTEMPTED =>
    by_cases hb : pend.isEmpty
    · rw [step_structured_eq, if_pos hb]; exact h
    · rw [step_structured_eq, if_neg hb]
      intro e he
      rcases List.mem_append.mp he with he | he
      · exact h e he
      · obtain ⟨s2, _, hs2⟩ := runStrategy_mem _ pend e he
        exact (patternResolve_spec p s2 e hs2).1
  | PATTERN_ATTEMPTED =>
    by_cases hb : pend.isEmpty
    · rw [step_pattern_eq, if_pos hb]; exact h
    · rw [step_pattern_eq, if_neg hb]
      intro e he
      rcases List.mem_append.mp he with he | he
      · exact h e he
      · obtain ⟨s2, _, hs2⟩ := runStrategy_mem _ pend e he
        exact (pageResolve_spec p s2 e hs2).1
  | PAGE_ATTEMPTED =>
    rw [step_page_eq]
    intro e he
    rcases List.mem_append.mp he with he | he
    · exact h e he
    · obtain ⟨s2, _, rfl⟩ := List.mem_map.mp he
      exact (failed_speech_spec s2).1
  | DONE => exact h

/-- Every speech the pipeline emits carries valid metadata. -/
lemma pipeline_meta (p : ProtocolDocument) (stubs : List SpeechStub) :
    ∀ e ∈ parse_protocol_speeches p stubs, metadata_ok e.metadata := by
  have h0 : ∀ e ∈ (⟨PipeState.PENDING, stubs,
      ([] : List ExtractedSpeech)⟩ : PipeConfig).emitted, metadata_ok e.metadata := by
    intro e he; simp at he
  exact step_meta p _ (step_meta p _ (step_meta p _ (step_meta p _ h0)))

/-- One transition goes to DONE exactly when the pending set is empty or
all strategies have been attempted. -/
lemma step_done_iff (p : ProtocolDocument) (s : PipeState)
    (pend : List SpeechStub) (em : List ExtractedSpeech) :
    (step p ⟨s, pend, em⟩).state = PipeState.DONE ↔
      (pend = [] ∨ s = PipeState.PAGE_ATTEMPTED ∨ s = PipeState.DONE) := by
  cases s with
  | PENDING =>
    by_cases hb : pend.isEmpty
    · have hpe : pend = [] := List.isEmpty_iff.mp hb
      subst hpe
      simp [step_pending_eq]
    · have hpe : pend ≠ [] := fun hh => hb (by rw [hh]; rfl)
      rw [step_pending_eq, if_neg hb]; simp [hpe]
  | STRUCTURED_ATTEMPTED =>
    by_cases hb : pend.isEmpty
    · have hpe : pend = [] := List.isEmpty_iff.mp hb
      subst hpe
      simp [step_structured_eq]
    · have hpe : pend ≠ [] := fun hh => hb (by rw [hh]; rfl)
      rw [step_structured_eq, if_neg hb]; simp [hpe]
  | PATTERN_ATTEMPTED =>
    by_cases hb : pend.isEmpty
    · have hpe : pend = [] := List.isEmpty_iff.mp hb
      subst hpe
      simp [step_pattern_eq]
    · have hpe : pend ≠ [] := fun hh => hb (by rw [hh]; rfl)
      rw [step_pattern_eq, if_neg hb]; simp [hpe]
  | PAGE_ATTEMPTED => rw [step_page_eq]; simp
  | DONE => rw [step_done_eq]; simp

/-- One transition never enlarges the pending set. -/
lemma step_pending_sublist (p : ProtocolDocument) (s : PipeState)
    (pend : List SpeechStub) (em : List ExtractedSpeech) :
    ((step p ⟨s, pend, em⟩).pending).Sublist pend := by
  cases s with
  | PENDING =>
    by_cases hb : pend.isEmpty
    · rw [step_pending_eq, if_pos hb]
    · rw [step_pending_eq, if_neg hb]; exact runStrategy_pending_sublist _ pend
  | STRUCTURED_ATTEMPTED =>
    by_cases hb : pend.isEmpty
    · rw [step_structured_eq, if_pos hb]
    · rw [step_structured_eq, if_neg hb]; exact runStrategy_pending_sublist _ pend
  | PATTERN_ATTEMPTED =>
    by_cases hb : pend.isEmpty
    · rw [step_pattern_eq, if_pos hb]
    · rw [step_pattern_eq, if_neg hb]; exact runStrategy_pending_sublist _ pend
  | PAGE_ATTEMPTED => rw [step_page_eq]; exact List.nil_sublist _
  | DONE => rw [step_done_eq]

/-- One transition only appends to the emitted sequence. -/
lemma step_emitted_extends (p : ProtocolDocument) (s : PipeState)
    (pend : List SpeechStub) (em : List ExtractedSpeech) :
    ∃ t, (step p ⟨s, pend, em⟩).emitted = em ++ t := by
  cases s with
  | PENDING =>
    by_cases hb : pend.isEmpty
    · rw [step_pending_eq, if_pos hb]; exact ⟨[], (List.append_nil em).symm⟩
    · rw [step_pending_eq, if_neg hb]; exact ⟨_, rfl⟩
  | STRUCTURED_ATTEMPTED =>
    by_cases hb : pend.isEmpty
    · rw [step_structured_eq, if_pos hb]; exact ⟨[], (List.append_nil em).symm⟩
    · rw [step_structured_eq, if_neg hb]; exact ⟨_, rfl⟩
  | PATTERN_ATTEMPTED =>
    by_cases hb : pend.isEmpty
    · rw [step_pattern_eq, if_pos hb]; exact ⟨[], (List.append_nil em).symm⟩
    · rw [step_pattern_eq, if_neg hb]; exact ⟨_, rfl⟩
  | PAGE_ATTEMPTED => rw [step_page_eq]; exact ⟨_, rfl⟩
  | DONE => rw [step_done_eq]; exact ⟨[], (List.append_nil em).symm⟩

/-- The checkpoint log a job run folds up is the completed record of each
job in order. -/
lemma run_job_log (jobs : List ProtocolJob) :
    ∀ cp : ProgressCheckpoint,
      (jobs.foldl (fun c j => record c j.doc.id Outcome.completed) cp).log
        = cp.log ++ jobs.map fun j => (j.doc.id, Outcome.completed) := by
  induction jobs with
  | nil => intro cp; simp
  | cons j rest ih =>
    intro cp
    rw [List.foldl_cons, ih (record cp j.doc.id Outcome.completed)]
    simp [record]

/-! ## Claim theorems for the selector pipeline -/

/-- Claim C1: the selector produces exactly one ExtractedSpeech per
original SpeechStub — no duplicates, no omissions: the emitted stub
identifiers are a permutation of the input stub identifiers, so in
particular the two identifier sets are equal. -/
theorem selector_exactly_one_speech_per_stub (p : ProtocolDocument)
    (stubs : List SpeechStub) :
    ((parse_protocol_speeches p stubs).map ExtractedSpeech.stubId).Perm
      (stubs.map SpeechStub.id) ∧
    ∀ i : Nat, i ∈ (parse_protocol_speeches p stubs).map ExtractedSpeech.stubId ↔
      i ∈ stubs.map SpeechStub.id :=
  ⟨pipeline_ids p stubs, fun _ => (pipeline_ids p stubs).mem_iff⟩

/-- Claim C2: every ExtractionMetadata record the pipeline produces (by any
strategy) satisfies the invariant: method and status lie in their domains,
confidence in [0,1], and method = failed, status = empty, confidence = 0
are pairwise equivalent. -/
theorem extraction_metadata_invariant (p : ProtocolDocument)
    (stubs : List SpeechStub) :
    ∀ e ∈ parse_protocol_speeches p stubs, metadata_ok e.metadata :=
  pipeline_meta p stubs

/-- Witness for C2: the sample protocol resolves its stub through the
structured strategy and the emitted record satisfies the invariant. -/
theorem extraction_metadata_invariant_witness :
    sampleXmlSpeech ∈ parse_protocol_speeches sampleProtocol [sampleStub] ∧
    metadata_ok sampleXmlSpeech.metadata := by
  have hm : sampleXmlSpeech ∈ parse_protocol_speeches sampleProtocol [sampleStub] := by
    decide
  exact ⟨hm, extraction_metadata_invariant sampleProtocol [sampleStub] sampleXmlSpeech hm⟩

/-- Claim C3: for every stub resolvable by both the structured-format
strategy and the pattern-matching strategy, the structured result's
confidence is strictly greater than the pattern result's. -/
theorem structured_outranks_pattern (p : ProtocolDocument) (s : SpeechStub)
    (e1 e2 : ExtractedSpeech)
    (h1 : xmlResolve p s = some e1) (h2 : patternResolve p s = some e2) :
    e2.metadata.confidence < e1.metadata.confidence := by
  have hx := (xmlResolve_spec p s e1 h1).2.2
  have hp := (patternResolve_spec p s e2 h2).2.2
  have hlt : (13 : ℚ)/20 < 7/10 := by norm_num
  linarith

/-- Witness for C3: the sample stub is resolvable by both strategies and
the structured confidence strictly outranks the pattern confidence. -/
theorem structured_outranks_pattern_witness :
    xmlResolve sampleProtocol sampleStub = some sampleXmlSpeech ∧
    patternResolve sampleProtocol sampleStub = some samplePatternSpeech ∧
    samplePatternSpeech.metadata.confidence < sampleXmlSpeech.metadata.confidence := by
  have h1 : xmlResolve sampleProtocol sampleStub = some sampleXmlSpeech := by decide
  have hle : min_similarity ≤ sampleMatch.similarity := by
    norm_num [min_similarity, sampleMatch]
  have h2 : patternResolve sampleProtocol sampleStub = some samplePatternSpeech := by
    show some ⟨sampleStub.id,
        (if min_similarity ≤ sampleMatch.similarity then sampleMatch.matched_speaker
         else "unknown"),
        sampleMatch.segment_text,
        ⟨Method.pattern,
         (if min_similarity ≤ sampleMatch.similarity ∧ sampleMatch.start_found = true ∧
            sampleMatch.end_found = true
          then Status.complete else Status.part),
         pattern_confidence sampleMatch⟩⟩ = some samplePatternSpeech
    rw [if_pos hle, if_pos ⟨hle, rfl, rfl⟩]
    exact rfl
  exact ⟨h1, h2, structured_outranks_pattern sampleProtocol sampleStub
    sampleXmlSpeech samplePatternSpeech h1 h2⟩

/-- Claim C8: the per-protocol state machine visits the states in the fixed
fidelity order PENDING, STRUCTURED_ATTEMPTED, PATTERN_ATTEMPTED,
PAGE_ATTEMPTED, DONE: each transition goes to the fixed successor or to
DONE, it reaches DONE exactly when the pending set is empty or all
strategies have been attempted, each strategy sees only the stubs still
unresolved (the pending set only shrinks, the emitted sequence only grows),
the stubs remaining after the page strategy are emitted with method=failed,
and four transitions from PENDING always end in DONE. -/
theorem selector_state_machine (p : ProtocolDocument) (s : PipeState)
    (pend : List SpeechStub) (em : List ExtractedSpeech) :
    ((step p ⟨s, pend, em⟩).state = PipeState.DONE ∨
      (step p ⟨s, pend, em⟩).state = succState s) ∧
    ((step p ⟨s, pend, em⟩).state = PipeState.DONE ↔
      (pend = [] ∨ s = PipeState.PAGE_ATTEMPTED ∨ s = PipeState.DONE)) ∧
    ((step p ⟨s, pend, em⟩).pending).Sublist pend ∧
    (∃ t, (step p ⟨s, pend, em⟩).emitted = em ++ t) ∧
    (s = PipeState.PAGE_ATTEMPTED →
      step p ⟨s, pend, em⟩
        = ⟨PipeState.DONE, [], em ++ pend.map failed_speech⟩) ∧
    (step p (step p (step p (step p ⟨PipeState.PENDING, pend, []⟩)))).state
      = PipeState.DONE :=
  ⟨step_state_or_succ p ⟨s, pend, em⟩,
   step_done_iff p s pend em,
   step_pending_sublist p s pend em,
   step_emitted_extends p s pend em,
   fun hs => by subst hs; exact step_page_eq p pend em,
   step4_state_done p ⟨PipeState.PENDING, pend, []⟩⟩

/-- Witness for C8: after the page strategy over the sample stub the
machine is DONE at a concrete configuration, via the state-machine theorem
applied at PAGE_ATTEMPTED. -/
theorem selector_state_machine_witness :
    step sampleProtocol ⟨PipeState.PAGE_ATTEMPTED, [sampleStub], []⟩
      = ⟨PipeState.DONE, [], [failed_speech sampleStub]⟩ :=
  (selector_state_machine sampleProtocol PipeState.PAGE_ATTEMPTED
    [sampleStub] []).2.2.2.2.1 rfl

/-- Claim C9: no recoverable failure (fetch, validation, repair,
attribution) is fatal: the job succeeds exactly when the checkpoint store
is available, whatever each protocol's fetch returned; and on success every
protocol is recorded completed in the checkpoint log while every stub ends
in exactly one labeled terminal state (one emitted speech per stub, each
carrying a valid ExtractionMetadata record). -/
theorem recoverable_failures_not_fatal (store_available : Bool)
    (jobs : List ProtocolJob) :
    (is_success (run_job store_available jobs) = true ↔ store_available = true) ∧
    (∀ res, run_job store_available jobs = Except.ok res →
      res.2.log = (jobs.map fun j => (j.doc.id, Outcome.completed)) ∧
      ∀ j ∈ jobs,
        (j.doc.id, process_protocol j) ∈ res.1 ∧
        ((process_protocol j).map ExtractedSpeech.stubId).Perm
          (j.stubs.map SpeechStub.id) ∧
        ∀ e ∈ process_protocol j, metadata_ok e.metadata) := by
  cases store_available with
  | false =>
    constructor
    · simp [run_job, is_success]
    · intro res hres; simp [run_job] at hres
  | true =>
    constructor
    · simp [run_job, is_success]
    · intro res hres
      simp only [run_job, if_pos] at hres
      rw [Except.ok.injEq] at hres
      subst hres
      refine ⟨?_, ?_⟩
      · rw [run_job_log jobs ⟨[], jobs.length, 0⟩]
        rfl
      · intro j hj
        exact ⟨List.mem_map.mpr ⟨j, hj, rfl⟩,
          pipeline_ids _ j.stubs, pipeline_meta _ j.stubs⟩

/-- Witness for C9: a one-protocol job whose fetch failed permanently (no
structured document, no pattern matches, no pages) still succeeds with the
store available, the stub ends labeled failed, and the protocol is
checkpointed completed. -/
theorem recoverable_failures_not_fatal_witness :
    is_success (run_job true
      [⟨⟨77, 20, 5, [], none, [], []⟩, FetchOutcome.permanentFailure, [sampleStub]⟩])
      = true :=
  (recoverable_failures_not_fatal true
    [⟨⟨77, 20, 5, [], none, [], []⟩, FetchOutcome.permanentFailure, [sampleStub]⟩]).1.mpr
    rfl

end Bpe
